import Mathlib

/-!
Shallow embedding of the go2proto transformation engine
(pkg/ct, pkg/parser data model, pkg/transformer) and proofs about it.

Go maps are modelled extensionally as functions (`String → Option String`
for maps whose key-presence matters, `String → String` for tag maps that
are only read with Go's zero-value-on-miss indexing).  Go slices are Lean
lists.  Go `int`/`int64` are Lean `Int`.  Go strings are Lean `String`;
character classification (`unicode.IsUpper` etc.) is modelled with Lean's
ASCII `Char.isUpper`/`Char.isLower`, faithful on the ASCII identifiers the
tool consumes.
-/

set_option autoImplicit false

universe u v

/-! ### pkg/ct — category-theory primitives (source file ct.go) -/

namespace ct

/-- `ct.Monoid`: a record of an identity element and a binary append
(the Go `Empty func() A` thunk is modelled as a plain value). -/
structure Monoid (A : Type u) where
  Empty : A
  Append : A → A → A

/-- `ct.Filter`: keep the elements satisfying the predicate, in order. -/
def Filter {A : Type u} (xs : List A) (pred : A → Bool) : List A :=
  xs.filter pred

/-- `ct.Concat`: left fold of `Append` over the list starting from `Empty`. -/
def Concat {A : Type u} (m : Monoid A) (xs : List A) : A :=
  xs.foldl m.Append m.Empty

/-- `ct.FoldMap`: map and fold in one pass (left fold starting from `Empty`). -/
def FoldMap {A : Type u} {B : Type v} (xs : List A) (m : Monoid B) (f : A → B) : B :=
  xs.foldl (fun acc x => m.Append acc (f x)) m.Empty

/-- `ct.Unique`: the Go loop keeps the first occurrence of each element,
using a `seen` set; the set of seen elements always equals the set of
elements of the accumulated result, so the loop state is the result list. -/
def Unique {A : Type u} [DecidableEq A] (xs : List A) : List A :=
  xs.foldl (fun acc x => if x ∈ acc then acc else acc ++ [x]) []

/-- `ct.Coalesce` at type `string`: first value different from the zero
value `""`, else `""` (the Go variadic call sites pass two strings). -/
def Coalesce : List String → String
  | [] => ""
  | v :: rest => if v ≠ "" then v else Coalesce rest

end ct

/-! ### pkg/parser — the Type Graph data model (source file parser.go).
`GoType` is mutually recursive with fields/methods/params exactly as the
Go declarations are.  `ast.ChanDir` is an integer. -/

mutual

inductive GoType : Type where
  | basic (name : String)
  | pointer (elem : GoType)
  | slice (elem : GoType)
  | array (elem : GoType) (len : Int)
  | mapT (key : GoType) (value : GoType)
  | named (pkg : String) (name : String)
  | interfaceT (methods : List GoMethod)
  | structT (fields : List GoField)
  | chan (elem : GoType) (dir : Int)
  | funcT (params : List GoParam) (results : List GoParam)

inductive GoField : Type where
  | mk (name : String) (typ : GoType) (tag : String) (embedded : Bool)
       (comments : List String) (exported : Bool)

inductive GoMethod : Type where
  | mk (name : String) (params : List GoParam) (results : List GoParam)

inductive GoParam : Type where
  | mk (name : String) (typ : GoType)

end

def GoField.name : GoField → String | .mk n _ _ _ _ _ => n
def GoField.typ : GoField → GoType | .mk _ t _ _ _ _ => t
def GoField.tag : GoField → String | .mk _ _ tg _ _ _ => tg
def GoField.embedded : GoField → Bool | .mk _ _ _ e _ _ => e
def GoField.comments : GoField → List String | .mk _ _ _ _ c _ => c
def GoField.exported : GoField → Bool | .mk _ _ _ _ _ e => e

def GoMethod.name : GoMethod → String | .mk n _ _ => n
def GoMethod.params : GoMethod → List GoParam | .mk _ p _ => p
def GoMethod.results : GoMethod → List GoParam | .mk _ _ r => r

def GoParam.name : GoParam → String | .mk n _ => n
def GoParam.typ : GoParam → GoType | .mk _ t => t

/-- `NamedType.String()`: qualified name when a package is present. -/
def GoType.qualifiedName (pkg name : String) : String :=
  if pkg ≠ "" then pkg ++ "." ++ name else name

/-- `GoStruct` (parser.go): tag maps are read only by Go indexing, which
yields `""` for a missing key, so they are total functions with default. -/
structure GoStruct where
  name : String
  fields : List GoField
  comments : List String
  tags : String → String
  typeParams : List String

/-- `GoInterface` (parser.go). -/
structure GoInterface where
  name : String
  methods : List GoMethod
  comments : List String
  tags : String → String

/-- `GoAlias` (parser.go). -/
structure GoAlias where
  name : String
  underlying : GoType
  comments : List String
  tags : String → String

/-- `GoConstValue` (parser.go). -/
structure GoConstValue where
  name : String
  value : Int
  comments : List String

/-- `GoConstGroup` (parser.go). -/
structure GoConstGroup where
  typeName : String
  values : List GoConstValue

/-- `GoPackage` (parser.go). -/
structure GoPackage where
  path : String
  name : String
  structs : List GoStruct
  interfaces : List GoInterface
  aliases : List GoAlias
  consts : List GoConstGroup

/-! ### pkg/transformer — the Proto IR (transformer.go). -/

/-- `ProtoField`. -/
structure ProtoField where
  name : String
  typ : String
  number : Int
  repeated : Bool
  optional : Bool
  mapKey : String
  mapValue : String
  comments : List String
deriving DecidableEq

/-- `ProtoEnumValue`. -/
structure ProtoEnumValue where
  name : String
  number : Int
  comments : List String
deriving DecidableEq

/-- `ProtoEnum`. -/
structure ProtoEnum where
  name : String
  values : List ProtoEnumValue
  comments : List String
deriving DecidableEq

/-- `ProtoMessage` is recursive through `Nested`, so it is an inductive. -/
inductive ProtoMessage : Type where
  | mk (name : String) (fields : List ProtoField) (nested : List ProtoMessage)
       (enums : List ProtoEnum) (comments : List String)

def ProtoMessage.name : ProtoMessage → String | .mk n _ _ _ _ => n
def ProtoMessage.fields : ProtoMessage → List ProtoField | .mk _ f _ _ _ => f
def ProtoMessage.nested : ProtoMessage → List ProtoMessage | .mk _ _ n _ _ => n
def ProtoMessage.enums : ProtoMessage → List ProtoEnum | .mk _ _ _ e _ => e
def ProtoMessage.comments : ProtoMessage → List String | .mk _ _ _ _ c => c

/-- `ProtoRPC`. -/
structure ProtoRPC where
  name : String
  inputType : String
  outputType : String
  clientStreaming : Bool
  serverStreaming : Bool
  comments : List String
deriving DecidableEq

/-- `ProtoService`. -/
structure ProtoService where
  name : String
  methods : List ProtoRPC
  comments : List String
deriving DecidableEq

/-- `Proto` (transformer.go): `Syntax`, `Package`, `Options`, `Imports`,
`Enums`, `Messages`, `Services`.  The `Options` map is extensional:
a Go `map[string]string` is the function sending each key to its value
(`none` = key absent; the zero/nil map is `fun _ => none`).  The field
`Syntax` is rendered as `syn` and `Package` as `pkg` because of
host-language naming restrictions. -/
@[ext]
structure Proto where
  syn : String
  pkg : String
  options : String → Option String
  imports : List String
  enums : List ProtoEnum
  messages : List ProtoMessage
  services : List ProtoService

/-- The zero `Proto` value (Go `Proto{...}` composite literals with only
some fields set start from this). -/
def protoZero : Proto :=
  { syn := "", pkg := "", options := fun _ => none, imports := [],
    enums := [], messages := [], services := [] }

/-- `ProtoMonoid.Empty`: `Proto{Syntax: "proto3", Options: make(map)}`. -/
def protoEmpty : Proto :=
  { protoZero with syn := "proto3" }

/-- `ProtoMonoid.Append`: the Go body copies `a.Options` into a fresh map
and then overwrites with `b.Options` (so for a key present in both, `b`
wins); `Syntax` and `Package` go through `ct.Coalesce`; `Imports` are
concatenated then `ct.Unique`-deduplicated; the three declaration lists
are concatenated. -/
def protoAppend (a b : Proto) : Proto :=
  { syn := ct.Coalesce [a.syn, b.syn],
    pkg := ct.Coalesce [a.pkg, b.pkg],
    options := fun k => match b.options k with
      | some v => some v
      | none => a.options k,
    imports := ct.Unique (a.imports ++ b.imports),
    enums := a.enums ++ b.enums,
    messages := a.messages ++ b.messages,
    services := a.services ++ b.services }

/-- `ProtoMonoid` (transformer.go). -/
def ProtoMonoid : ct.Monoid Proto :=
  { Empty := protoEmpty, Append := protoAppend }

/-! ### transformer.go — string helpers -/

/-- `strings.Split` with a single-character separator (the call sites use
`","` and `"/"`): split at every separator, keeping empty chunks. -/
def goSplitAux (sep : Char) : List Char → List Char → List String
  | [], acc => [String.mk acc.reverse]
  | c :: rest, acc =>
    if c = sep then String.mk acc.reverse :: goSplitAux sep rest []
    else goSplitAux sep rest (c :: acc)

def goSplit (sep : Char) (s : String) : List String :=
  goSplitAux sep s.data []

/-- `strings.HasPrefix`. -/
def goHasPrefix (pre s : String) : Bool :=
  pre.data.isPrefixOf s.data

/-- `strings.ToUpper` (ASCII model). -/
def goToUpper (s : String) : String :=
  String.mk (s.data.map Char.toUpper)

/-- `toSnakeCase` (transformer.go): walk the runes, inserting `_` before an
upper-case rune when the previous rune was "lower" (any non-upper rune) or
when the next rune is lower-case; `isFirst` tracks the Go condition
`i > 0`. -/
def snakeAux : List Char → Bool → Bool → List Char
  | [], _, _ => []
  | c :: rest, isFirst, prevLower =>
    if c.isUpper then
      let nextIsLower := match rest with
        | d :: _ => d.isLower
        | [] => false
      let sep := if !isFirst && (prevLower || (nextIsLower && !prevLower)) then ['_'] else []
      sep ++ (c.toLower :: snakeAux rest false false)
    else
      c :: snakeAux rest false true

def toSnakeCase (s : String) : String :=
  String.mk (snakeAux s.data true false)

/-- `toEnumValueName` (transformer.go). -/
def toEnumValueName (typeName valueName : String) : String :=
  let upperTypeName := goToUpper (toSnakeCase typeName)
  let upperValueName := goToUpper (toSnakeCase valueName)
  if goHasPrefix upperTypeName upperValueName then upperValueName
  else upperTypeName ++ "_" ++ upperValueName

/-- `toProtoPackage` (transformer.go): drop everything through the first
well-known hosting component, join with dots, replace dashes. -/
def toProtoPackage (goPath : String) : String :=
  let parts := goSplit '/' goPath
  let parts := match parts.findIdx? (fun p =>
      p = "github.com" ∨ p = "gitlab.com" ∨ p = "bitbucket.org") with
    | some i => parts.drop (i + 1)
    | none => parts
  (String.intercalate "." parts).replace "-" "_"

/-- `filterNonTagComments` (transformer.go). -/
def filterNonTagComments (comments : List String) : List String :=
  ct.Filter comments (fun c => !goHasPrefix "+" c.trim)

/-- `isBasicProtoType` (transformer.go). -/
def isBasicProtoType (t : String) : Bool :=
  match t with
  | "string" | "bool" | "bytes" | "int32" | "int64" | "uint32" | "uint64"
  | "sint32" | "sint64" | "fixed32" | "fixed64" | "sfixed32" | "sfixed64"
  | "float" | "double" => true
  | _ => false

/-! ### transformer.go — `parseProtobufTag` -/

/-- `fmt.Sscanf(s, "%d", &n)`: skip leading white space, accept an optional
sign and a maximal run of digits; on a scan failure the target keeps its
zero value `0`. -/
def sscanfInt (s : String) : Int :=
  let cs := s.data.dropWhile (fun c => c = ' ' ∨ c = '\t' ∨ c = '\n' ∨ c = '\r')
  let (neg, cs) := match cs with
    | '-' :: rest => (true, rest)
    | '+' :: rest => (false, rest)
    | rest => (false, rest)
  let digits := cs.takeWhile Char.isDigit
  if digits = [] then 0
  else
    let n : Nat := digits.foldl (fun acc c => acc * 10 + (c.toNat - 48)) 0
    if neg then -(n : Int) else (n : Int)

/-- `strings.Trim(tag, "\x60")`: trim back-quote characters (code 96) from
both ends. -/
def trimBackticks (s : String) : String :=
  let bq := Char.ofNat 96
  String.mk (((s.data.dropWhile (· = bq)).reverse.dropWhile (· = bq)).reverse)

/-- The regular expression `protobuf:"([^"]+)"` applied by
`regexp.FindStringSubmatch`: scan left to right for the literal
`protobuf:"`, then a non-empty run of non-quote characters closed by `"`;
positions where the pattern cannot complete are skipped. -/
def findProtobufPayload : List Char → Option String
  | [] => none
  | c :: rest =>
    let pat := "protobuf:\"".data
    let s := c :: rest
    if pat.isPrefixOf s then
      let after := s.drop pat.length
      let content := after.takeWhile (fun d => d ≠ '"')
      if content ≠ [] ∧ (after.drop content.length).head? = some '"' then
        some (String.mk content)
      else
        findProtobufPayload rest
    else
      findProtobufPayload rest

/-- `parseProtobufTag` (transformer.go): `nil` for an empty tag, a tag
without a `protobuf:"..."` group, or a payload with fewer than three
comma-separated parts; otherwise number from `Sscanf "%d"` on the second
part, `name=`/`rep`/`opt` scanned over the remaining parts, and the wire
type mapped from the first part (unknown wire types leave `Type` empty). -/
def parseProtobufTag (tag : String) : Option ProtoField :=
  if tag = "" then none
  else
    let tag := trimBackticks tag
    match findProtobufPayload tag.data with
    | none => none
    | some payload =>
      match goSplit ',' payload with
      | p0 :: p1 :: p2 :: prest =>
        let field0 : ProtoField :=
          { name := "", typ := "", number := sscanfInt p1, repeated := false,
            optional := false, mapKey := "", mapValue := "", comments := [] }
        let field1 := (p2 :: prest).foldl (fun f part =>
          let f := if goHasPrefix "name=" part then { f with name := part.drop 5 } else f
          let f := if part = "rep" then { f with repeated := true } else f
          if part = "opt" then { f with optional := true } else f) field0
        let ty := match p0 with
          | "bytes" => "bytes"
          | "varint" => "int64"
          | "fixed64" => "fixed64"
          | "fixed32" => "fixed32"
          | _ => ""
        some { field1 with typ := ty }
      | _ => none

/-! ### transformer.go — options, transformer, type resolution -/

/-- `TypeMapping` (transformer.go); `Import` is rendered `imp`. -/
structure TypeMapping where
  proto : String
  imp : String

/-- `defaultTypeMappings` (transformer.go), as the extensional lookup
function of the Go map literal. -/
def defaultTypeMappings : String → Option TypeMapping
  | "string" => some ⟨"string", ""⟩
  | "bool" => some ⟨"bool", ""⟩
  | "int" => some ⟨"int64", ""⟩
  | "int8" => some ⟨"int32", ""⟩
  | "int16" => some ⟨"int32", ""⟩
  | "int32" => some ⟨"int32", ""⟩
  | "int64" => some ⟨"int64", ""⟩
  | "uint" => some ⟨"uint64", ""⟩
  | "uint8" => some ⟨"uint32", ""⟩
  | "uint16" => some ⟨"uint32", ""⟩
  | "uint32" => some ⟨"uint32", ""⟩
  | "uint64" => some ⟨"uint64", ""⟩
  | "float32" => some ⟨"float", ""⟩
  | "float64" => some ⟨"double", ""⟩
  | "byte" => some ⟨"uint32", ""⟩
  | "rune" => some ⟨"int32", ""⟩
  | "[]byte" => some ⟨"bytes", ""⟩
  | "time.Time" => some ⟨"google.protobuf.Timestamp", "google/protobuf/timestamp.proto"⟩
  | "time.Duration" => some ⟨"google.protobuf.Duration", "google/protobuf/duration.proto"⟩
  | "error" => some ⟨"string", ""⟩
  | "any" => some ⟨"google.protobuf.Any", "google/protobuf/any.proto"⟩
  | _ => none

/-- `TransformOptions` (transformer.go). -/
structure TransformOptions where
  packageName : String
  goPackage : String
  typeMappings : String → Option TypeMapping
  includePrivate : Bool
  serviceSuffix : String

/-- `DefaultOptions` (transformer.go). -/
def DefaultOptions : TransformOptions :=
  { packageName := "", goPackage := "", typeMappings := defaultTypeMappings,
    includePrivate := false, serviceSuffix := "Service" }

/-- `Transformer` (transformer.go): options plus the `knownTypes` map
created by `NewTransformer`; the map is never read or written by any
transformation function, exactly as in the source. -/
structure Transformer where
  opts : TransformOptions
  knownTypes : String → Bool

/-- `NewTransformer` (transformer.go). -/
def NewTransformer (opts : TransformOptions) : Transformer :=
  { opts := opts, knownTypes := fun _ => false }

/-- The result tuple of `transformType`: `(protoType, imports, repeated,
isMap, mapKey, mapValue)` with Go zero values as defaults. -/
structure TypeResolution where
  protoType : String
  imports : List String
  repeated : Bool
  isMap : Bool
  mapKey : String
  mapValue : String
deriving DecidableEq

def TypeResolution.zero : TypeResolution :=
  { protoType := "", imports := [], repeated := false, isMap := false,
    mapKey := "", mapValue := "" }

/-- `transformType` (transformer.go).  `enumLookup` and `typeParamsLookup`
are the extensional views of the Go maps; a `nil` map is `fun _ => false`
(indexing a nil map yields `false`, and the `typeParamsLookup != nil`
guard composes to the same test). -/
def transformType (t : Transformer) (goType : GoType)
    (enumLookup : String → Bool) (typeParamsLookup : String → Bool) : TypeResolution :=
  match goType with
  | .basic name =>
    match t.opts.typeMappings name with
    | some mapping =>
      { TypeResolution.zero with
        protoType := mapping.proto,
        imports := if mapping.imp ≠ "" then [mapping.imp] else [] }
    | none => { TypeResolution.zero with protoType := name }
  | .pointer elem => transformType t elem enumLookup typeParamsLookup
  | .slice elem =>
    match elem with
    | .basic bn =>
      if bn = "byte" then { TypeResolution.zero with protoType := "bytes" }
      else
        let inner := transformType t (.basic bn) enumLookup typeParamsLookup
        { TypeResolution.zero with
          protoType := inner.protoType,
          imports := inner.imports, repeated := true }
    | e =>
      let inner := transformType t e enumLookup typeParamsLookup
      { TypeResolution.zero with
        protoType := inner.protoType,
        imports := inner.imports, repeated := true }
  | .array elem _ =>
    let inner := transformType t elem enumLookup typeParamsLookup
    { TypeResolution.zero with
      protoType := inner.protoType,
      imports := inner.imports, repeated := true }
  | .mapT key value =>
    let keyRes := transformType t key enumLookup typeParamsLookup
    let valueRes := transformType t value enumLookup typeParamsLookup
    { protoType := "map<" ++ keyRes.protoType ++ ", " ++ valueRes.protoType ++ ">",
      imports := keyRes.imports ++ valueRes.imports,
      repeated := false, isMap := true,
      mapKey := keyRes.protoType, mapValue := valueRes.protoType }
  | .named pkg name =>
    let fullName := GoType.qualifiedName pkg name
    if enumLookup name then { TypeResolution.zero with protoType := name }
    else
      match t.opts.typeMappings fullName with
      | some mapping =>
        { TypeResolution.zero with
          protoType := mapping.proto,
          imports := if mapping.imp ≠ "" then [mapping.imp] else [] }
      | none =>
        if pkg = "time" ∧ name = "Time" then
          { TypeResolution.zero with
            protoType := "google.protobuf.Timestamp",
            imports := ["google/protobuf/timestamp.proto"] }
        else if pkg = "time" ∧ name = "Duration" then
          { TypeResolution.zero with
            protoType := "google.protobuf.Duration",
            imports := ["google/protobuf/duration.proto"] }
        else if typeParamsLookup name then
          { TypeResolution.zero with
            protoType := "google.protobuf.Any",
            imports := ["google/protobuf/any.proto"] }
        else { TypeResolution.zero with protoType := name }
  | .interfaceT _ =>
    { TypeResolution.zero with
      protoType := "google.protobuf.Any",
      imports := ["google/protobuf/any.proto"] }
  | .structT _ =>
    { TypeResolution.zero with
      protoType := "google.protobuf.Any",
      imports := ["google/protobuf/any.proto"] }
  | .chan _ _ =>
    { TypeResolution.zero with
      protoType := "google.protobuf.Any",
      imports := ["google/protobuf/any.proto"] }
  | .funcT _ _ =>
    { TypeResolution.zero with
      protoType := "google.protobuf.Any",
      imports := ["google/protobuf/any.proto"] }

/-! ### transformer.go — declaration transformers -/

/-- `transformField` (transformer.go): a parsed `protobuf` tag wins
outright (with no imports); otherwise the resolver runs and a pointer
field is optional exactly when its resolved proto type is scalar. -/
def transformField (t : Transformer) (f : GoField) (num : Int)
    (enumLookup : String → Bool) (typeParamsLookup : String → Bool) :
    ProtoField × List String :=
  match parseProtobufTag f.tag with
  | some tagField => (tagField, [])
  | none =>
    let res := transformType t f.typ enumLookup typeParamsLookup
    let opt := match f.typ with
      | .pointer _ => isBasicProtoType res.protoType
      | _ => false
    ({ name := toSnakeCase f.name, typ := res.protoType, number := num,
       repeated := res.repeated, optional := opt,
       mapKey := res.mapKey, mapValue := res.mapValue,
       comments := filterNonTagComments f.comments }, res.imports)

/-- The field loop of `transformStruct`: skip unexported fields (unless
`IncludePrivate`) and embedded fields; a transformed field with an empty
name is dropped without consuming a field number. -/
def structFields (t : Transformer) (enumLookup : String → Bool)
    (typeParamsLookup : String → Bool) :
    List GoField → Int → List ProtoField × List String
  | [], _ => ([], [])
  | f :: rest, fieldNum =>
    if !f.exported && !t.opts.includePrivate then
      structFields t enumLookup typeParamsLookup rest fieldNum
    else if f.embedded then
      structFields t enumLookup typeParamsLookup rest fieldNum
    else
      let fieldRes := transformField t f fieldNum enumLookup typeParamsLookup
      if fieldRes.1.name ≠ "" then
        let tl := structFields t enumLookup typeParamsLookup rest (fieldNum + 1)
        (fieldRes.1 :: tl.1, fieldRes.2 ++ tl.2)
      else
        structFields t enumLookup typeParamsLookup rest fieldNum

/-- First byte of the struct name is a lower-case letter
(`unicode.IsLower(rune(s.Name[0]))`, ASCII). -/
def firstCharIsLower (s : String) : Bool :=
  match s.data with
  | [] => false
  | c :: _ => c.isLower

/-- `transformStruct` (transformer.go). -/
def transformStruct (t : Transformer) (s : GoStruct)
    (enumLookup : String → Bool) : Proto :=
  if s.tags "go2proto" = "false" then ProtoMonoid.Empty
  else if s.name.length > 0 && firstCharIsLower s.name then ProtoMonoid.Empty
  else
    let typeParamsLookup : String → Bool := fun n => s.typeParams.contains n
    let fieldsRes := structFields t enumLookup typeParamsLookup s.fields 1
    let msg : ProtoMessage :=
      .mk s.name fieldsRes.1 [] [] (filterNonTagComments s.comments)
    { protoZero with messages := [msg], imports := ct.Unique fieldsRes.2 }

/-- `generateRequestMessage` (transformer.go): one field per parameter,
numbered from 1, resolver run with nil enum and type-parameter contexts,
imports discarded. -/
def generateRequestMessage (t : Transformer) (methodName : String)
    (params : List GoParam) : ProtoMessage :=
  .mk (methodName ++ "Request")
    (params.enum.map (fun ip =>
      let res := transformType t ip.2.typ (fun _ => false) (fun _ => false)
      let nm := if ip.2.name = "" then "arg" ++ toString (ip.1 + 1) else ip.2.name
      { name := toSnakeCase nm, typ := res.protoType,
        number := (ip.1 : Int) + 1, repeated := res.repeated, optional := false,
        mapKey := if res.isMap then res.mapKey else "",
        mapValue := if res.isMap then res.mapValue else "",
        comments := [] }))
    [] [] []

/-- `generateResponseMessage` (transformer.go), symmetric to the request
side with the `result%d` positional fallback. -/
def generateResponseMessage (t : Transformer) (methodName : String)
    (results : List GoParam) : ProtoMessage :=
  .mk (methodName ++ "Response")
    (results.enum.map (fun ip =>
      let res := transformType t ip.2.typ (fun _ => false) (fun _ => false)
      let nm := if ip.2.name = "" then "result" ++ toString (ip.1 + 1) else ip.2.name
      { name := toSnakeCase nm, typ := res.protoType,
        number := (ip.1 : Int) + 1, repeated := res.repeated, optional := false,
        mapKey := if res.isMap then res.mapKey else "",
        mapValue := if res.isMap then res.mapValue else "",
        comments := [] }))
    [] [] []

/-- The parameter filter of `transformMethod`: drop `context.Context`. -/
def dropContext (params : List GoParam) : List GoParam :=
  ct.Filter params (fun p =>
    match p.typ with
    | .named pkg name => !(pkg = "context" && name = "Context")
    | _ => true)

/-- The result filter of `transformMethod`: drop the basic `error` type. -/
def dropError (results : List GoParam) : List GoParam :=
  ct.Filter results (fun p =>
    match p.typ with
    | .basic name => name ≠ "error"
    | _ => true)

/-- The input-side branch of `transformMethod`: one named parameter is
reused directly, no parameters use `google.protobuf.Empty` with its
import, anything else synthesizes a request message.  Result:
`(inputType, requestMessage?, imports)`. -/
def methodInput (t : Transformer) (methodName : String) (params : List GoParam) :
    String × Option ProtoMessage × List String :=
  match params with
  | [p] =>
    match p.typ with
    | .named _ nm => (nm, (none : Option ProtoMessage), ([] : List String))
    | _ =>
      let r := generateRequestMessage t methodName params
      (r.name, some r, [])
  | [] => ("google.protobuf.Empty", none, ["google/protobuf/empty.proto"])
  | _ =>
    let r := generateRequestMessage t methodName params
    (r.name, some r, [])

/-- The output-side branch of `transformMethod`: a single result is
unwrapped through one pointer and reused when named; zero results use
`google.protobuf.Empty` with its import; anything else synthesizes a
response message.  Result: `(outputType, responseMessage?, imports)`. -/
def methodOutput (t : Transformer) (methodName : String) (results : List GoParam) :
    String × Option ProtoMessage × List String :=
  match results with
  | [r] =>
    let resultType := match r.typ with
      | .pointer elem => elem
      | other => other
    match resultType with
    | .named _ nm => (nm, (none : Option ProtoMessage), ([] : List String))
    | _ =>
      let msg := generateResponseMessage t methodName results
      (msg.name, some msg, [])
  | [] => ("google.protobuf.Empty", none, ["google/protobuf/empty.proto"])
  | _ =>
    let msg := generateResponseMessage t methodName results
    (msg.name, some msg, [])

/-- `transformMethod` (transformer.go): filter the parameters and results,
run the input-side and output-side branch blocks, and assemble
`(rpc, requestMessage?, responseMessage?, imports)` with the input-side
imports preceding the output-side ones. -/
def transformMethod (t : Transformer) (m : GoMethod) (serviceName : String) :
    ProtoRPC × Option ProtoMessage × Option ProtoMessage × List String :=
  let inp := methodInput t m.name (dropContext m.params)
  let out := methodOutput t m.name (dropError m.results)
  ({ name := m.name, inputType := inp.1, outputType := out.1,
     clientStreaming := false, serverStreaming := false, comments := [] },
   inp.2.1, out.2.1, inp.2.2 ++ out.2.2)

/-- The method loop of `transformInterface`: collect RPCs, the request
and response messages in method order, and the per-method imports. -/
def interfaceMethods (t : Transformer) (serviceName : String) :
    List GoMethod → List ProtoRPC × List ProtoMessage × List String
  | [] => ([], [], [])
  | m :: rest =>
    let this := transformMethod t m serviceName
    let tl := interfaceMethods t serviceName rest
    (this.1 :: tl.1, (this.2.1.toList ++ this.2.2.1.toList) ++ tl.2.1,
     this.2.2.2 ++ tl.2.2)

/-- `transformInterface` (transformer.go): only interfaces carrying the
service directive are converted. -/
def transformInterface (t : Transformer) (i : GoInterface) : Proto :=
  if i.tags "go2proto:service" ≠ "true" && i.tags "go2proto" ≠ "service" then
    ProtoMonoid.Empty
  else
    let collected := interfaceMethods t i.name i.methods
    let service : ProtoService :=
      { name := i.name, methods := collected.1,
        comments := filterNonTagComments i.comments }
    { protoZero with
      services := [service], messages := collected.2.1,
      imports := ct.Unique collected.2.2 }

/-- `buildEnumLookup` (transformer.go): const groups with at least two
values, plus aliases tagged `go2proto:enum`. -/
def buildEnumLookup (pkg : GoPackage) : String → Bool := fun n =>
  pkg.consts.any (fun cg => cg.typeName = n && cg.values.length ≥ 2) ||
  pkg.aliases.any (fun al => al.tags "go2proto:enum" = "true" && al.name = n)

/-- `transformEnums` (transformer.go): emit one `ProtoEnum` per const
group recognized by the enum lookup, with upper-snake prefixed value names
and the numeric codes recorded by the parser. -/
def transformEnums (t : Transformer) (pkg : GoPackage)
    (enumLookup : String → Bool) : Proto :=
  let enums := (pkg.consts.filter (fun cg => enumLookup cg.typeName)).map
    (fun cg =>
      { name := cg.typeName,
        values := cg.values.map (fun cv =>
          { name := toEnumValueName cg.typeName cv.name, number := cv.value,
            comments := cv.comments }),
        comments := ([] : List String) })
  { protoZero with enums := enums }

/-- `transformPackage` (transformer.go). -/
def transformPackage (t : Transformer) (pkg : GoPackage) : Proto :=
  let protoPackage :=
    if t.opts.packageName = "" then toProtoPackage pkg.path else t.opts.packageName
  let goPackage :=
    if t.opts.goPackage = "" then pkg.path else t.opts.goPackage
  let enumLookup := buildEnumLookup pkg
  let base : Proto :=
    { protoZero with
      syn := "proto3", pkg := protoPackage,
      options := fun k => if k = "go_package" then some goPackage else none }
  let enums := transformEnums t pkg enumLookup
  let messages := ct.FoldMap pkg.structs ProtoMonoid (fun s => transformStruct t s enumLookup)
  let services := ct.FoldMap pkg.interfaces ProtoMonoid (fun i => transformInterface t i)
  ct.Concat ProtoMonoid [base, enums, messages, services]

/-- `Transform` (transformer.go). -/
def Transform (t : Transformer) (pkgs : List GoPackage) : Proto :=
  ct.FoldMap pkgs ProtoMonoid (transformPackage t)

/-! ### parser.go — const extraction (`extractConsts`).
A `const` declaration is a list of value specs; each spec optionally
names a backing type (`vs.Type` when it is a plain identifier) and lists
the declared names; `vs.Doc` comments attach to every name of the spec.
The shared `groups` map keyed by type name is modelled as an association
list in creation order (the Go map is only read back per key). -/

structure ValueSpec where
  typ : Option String
  names : List String
  comments : List String

/-- `ast.IsExported`: the first rune is upper-case (ASCII model). -/
def goIsExported (s : String) : Bool :=
  match s.data with
  | [] => false
  | c :: _ => c.isUpper

/-- Create an empty group for the type name if none exists yet
(`groups[currentType]` miss followed by `&GoConstGroup{...}`; group names
are unique, so an association list in creation order models the map). -/
def ensureGroup : List GoConstGroup → String → List GoConstGroup
  | [], tn => [{ typeName := tn, values := [] }]
  | g :: rest, tn =>
    if g.typeName = tn then g :: rest else g :: ensureGroup rest tn

/-- Append a value to the group of the given type name
(`group.Values = append(group.Values, ...)` through the map pointer). -/
def addValue : List GoConstGroup → String → GoConstValue → List GoConstGroup
  | [], tn, v => [{ typeName := tn, values := [v] }]
  | g :: rest, tn, v =>
    if g.typeName = tn then { g with values := g.values ++ [v] } :: rest
    else g :: addValue rest tn v

/-- The per-declaration state of `extractConsts`: the current backing type
name, the running iota counter, and the accumulated groups. -/
structure ConstState where
  currentType : String
  iota : Int
  groups : List GoConstGroup

/-- One declared name inside a spec: unexported names only advance the
counter; exported names record `(name, iota)` and advance it. -/
def constName (comments : List String) (tn : String) (st : ConstState)
    (nm : String) : ConstState :=
  if !goIsExported nm then { st with iota := st.iota + 1 }
  else
    { st with
      groups := addValue st.groups tn { name := nm, value := st.iota, comments := comments },
      iota := st.iota + 1 }

/-- One value spec of `extractConsts`: reset the counter only when the
spec names a backing type different from the current one; specs seen
before any typed spec are skipped. -/
def constSpec (st : ConstState) (vs : ValueSpec) : ConstState :=
  let st := match vs.typ with
    | some tn => if st.currentType ≠ tn then { st with currentType := tn, iota := 0 } else st
    | none => st
  if st.currentType = "" then st
  else
    let st := { st with groups := ensureGroup st.groups st.currentType }
    vs.names.foldl (constName vs.comments st.currentType) st

/-- `extractConsts` (parser.go) over one `const` declaration, threading the
groups accumulated from earlier declarations. -/
def extractConsts (specs : List ValueSpec) (groups : List GoConstGroup) :
    List GoConstGroup :=
  (specs.foldl constSpec { currentType := "", iota := 0, groups := groups }).groups

/-! ### Concrete fixtures used by witnesses and counterexamples -/

/-- The transformer the CLI builds: `NewTransformer(DefaultOptions())`
(the flag overrides default to the empty string / false). -/
def defaultTransformer : Transformer := NewTransformer DefaultOptions

/-- A fragment whose only content is a `go_package` option set to
`"pkg_a"`. -/
def optA : Proto :=
  { protoZero with options := fun k => if k = "go_package" then some "pkg_a" else none }

/-- A fragment whose only content is a `go_package` option set to
`"pkg_b"`. -/
def optB : Proto :=
  { protoZero with options := fun k => if k = "go_package" then some "pkg_b" else none }

/-! ### C1 — scalar-field resolution in `ProtoMonoid.Append` -/

/-- C1 counterexample: the claim says a generated-option value already set
in `a` is kept and never overridden by `b`; but `Append` copies `a.Options`
and then overwrites with `b.Options`, so for the shared key `go_package`
the merged fragment carries `b`'s value, not `a`'s. -/
theorem c1_counterexample :
    optA.options "go_package" = some "pkg_a" ∧
    (protoAppend optA optB).options "go_package" = some "pkg_b" ∧
    (some "pkg_b" : Option String) ≠ some "pkg_a" := by
  refine ⟨rfl, rfl, by decide⟩

/-- C1 amended: the syntax marker and package name do resolve
first-non-empty-wins in fold order, but generated-option values resolve
last-wins — a key present in the later fragment overrides the earlier
fragment's value, and the earlier value survives only for keys the later
fragment does not set. -/
theorem c1_amended (a b : Proto) :
    ((a.syn ≠ "" → (protoAppend a b).syn = a.syn) ∧
     (a.syn = "" → (protoAppend a b).syn = b.syn)) ∧
    ((a.pkg ≠ "" → (protoAppend a b).pkg = a.pkg) ∧
     (a.pkg = "" → (protoAppend a b).pkg = b.pkg)) ∧
    (∀ k v, b.options k = some v → (protoAppend a b).options k = some v) ∧
    (∀ k, b.options k = none → (protoAppend a b).options k = a.options k) := by
  refine ⟨⟨fun h => ?_, fun h => ?_⟩, ⟨fun h => ?_, fun h => ?_⟩,
    fun k v h => ?_, fun k h => ?_⟩ <;>
    simp [protoAppend, ct.Coalesce, h] <;>
    exact fun h' => h'.symm

/-- Witness for `c1_amended` at concrete fragments. -/
theorem c1_amended_witness :
    (protoAppend protoEmpty optB).syn = protoEmpty.syn ∧
    (protoAppend optA optB).options "go_package" = some "pkg_b" :=
  ⟨(c1_amended protoEmpty optB).1.1 (by decide),
   (c1_amended optA optB).2.2.1 "go_package" "pkg_b" rfl⟩

/-! ### C6 — pointer optionality -/

/-- C6: for a field without a wire-tag override whose Go type is a
pointer, the emitted field is optional exactly when the resolved proto
type is a scalar (`isBasicProtoType`); in particular a pointer whose
resolved type is a (non-scalar-named) message name is never optional. -/
theorem c6_pointer_optional (t : Transformer) (f : GoField) (num : Int)
    (enumLookup typeParamsLookup : String → Bool) (e : GoType)
    (htag : parseProtobufTag f.tag = none) (hptr : f.typ = .pointer e) :
    (transformField t f num enumLookup typeParamsLookup).1.optional =
      isBasicProtoType (transformType t f.typ enumLookup typeParamsLookup).protoType := by
  simp only [transformField, htag, hptr]

/-- Witness for `c6_pointer_optional`: a `*int32` field (optional, since
`int32` is scalar); the same theorem instantiated at `*User` makes the
right-hand side `false`. -/
theorem c6_pointer_optional_witness :
    (transformField defaultTransformer
        (.mk "Age" (.pointer (.basic "int32")) "" false [] true) 1
        (fun _ => false) (fun _ => false)).1.optional =
      isBasicProtoType (transformType defaultTransformer
        (GoField.mk "Age" (.pointer (.basic "int32")) "" false [] true).typ
        (fun _ => false) (fun _ => false)).protoType :=
  c6_pointer_optional defaultTransformer _ 1 _ _ (.basic "int32") rfl rfl

/-! ### C7 — scenario B -/

/-- The method `GetUser(ctx context.Context, id string) (*User, error)` as
the parser extracts it. -/
def getUserMethod : GoMethod :=
  .mk "GetUser"
    [.mk "ctx" (.named "context" "Context"), .mk "id" (.basic "string")]
    [.mk "" (.pointer (.named "" "User")), .mk "" (.basic "error")]

/-- C7: the context parameter is dropped, a `GetUserRequest` message is
synthesized with the single field `id = 1`, the error result is dropped,
and the single pointer-to-named result is unwrapped and reused, so the RPC
is `GetUser(GetUserRequest) returns (User)` with no response message and
no extra imports. -/
theorem c7_scenarioB :
    transformMethod defaultTransformer getUserMethod "UserService" =
      ({ name := "GetUser", inputType := "GetUserRequest", outputType := "User",
         clientStreaming := false, serverStreaming := false, comments := [] },
       some (.mk "GetUserRequest"
         [{ name := "id", typ := "string", number := 1, repeated := false,
            optional := false, mapKey := "", mapValue := "", comments := [] }]
         [] [] []),
       none, []) := rfl

/-! ### C8 — byte slices -/

/-- C8: a slice of `byte` resolves to the binary-blob type `bytes` with
the repeated flag not set (and no imports), for every lookup context. -/
theorem c8_byte_slice (t : Transformer) (enumLookup typeParamsLookup : String → Bool) :
    transformType t (.slice (.basic "byte")) enumLookup typeParamsLookup =
      { protoType := "bytes", imports := [], repeated := false, isMap := false,
        mapKey := "", mapValue := "" } := rfl

/-! ### C10 — envelope resolution discards imports -/

/-- An interface carrying the service directive whose method takes a
`time.Time` and a `string` (two parameters, so a request envelope is
synthesized). -/
def clockInterface : GoInterface :=
  { name := "Clock",
    methods := [.mk "Log" [.mk "at" (.named "time" "Time"), .mk "msg" (.basic "string")] []],
    comments := [],
    tags := fun k => if k = "go2proto:service" then "true" else "" }

/-- C10: the only imports a method transformation can emit are the
`google.protobuf.Empty` import of the zero-parameter/zero-result branches
— the imports computed while resolving envelope field types are discarded.
Concretely, a synthesized request envelope for a `time.Time` parameter
carries the mapped field type `google.protobuf.Timestamp`, yet the
emitted fragment's import list contains only the empty-envelope import
and not `google/protobuf/timestamp.proto`. -/
theorem c10_envelope_imports_discarded :
    (∀ (t : Transformer) (m : GoMethod) (serviceName : String),
      ((transformMethod t m serviceName).2.2.2).all
        (fun s => s = "google/protobuf/empty.proto") = true) ∧
    ((transformInterface defaultTransformer clockInterface).messages.map
      (fun msg => (msg.name, msg.fields.map (fun f => (f.name, f.typ, f.number)))) =
      [("LogRequest", [("at", "google.protobuf.Timestamp", 1),
                       ("msg", "string", 2)])]) ∧
    (transformInterface defaultTransformer clockInterface).imports =
      ["google/protobuf/empty.proto"] := by
  refine ⟨fun t m serviceName => ?_, rfl, rfl⟩
  show ((methodInput t m.name (dropContext m.params)).2.2 ++
        (methodOutput t m.name (dropError m.results)).2.2).all _ = true
  rw [List.all_append, Bool.and_eq_true]
  constructor <;> [unfold methodInput; unfold methodOutput] <;>
    repeat' split <;> simp_all

/-! ### C3 — dense field numbering -/

/-- The sequence `n, n+1, ..., n+k-1`: what "numbered sequentially from
`n`" means for an emitted field list of length `k`. -/
def seqNums : Int → Nat → List Int
  | _, 0 => []
  | n, k + 1 => n :: seqNums (n + 1) k

/-- A source field that would be emitted through a parsed wire-tag
annotation: its tag parses, the parsed name is non-empty (an empty name
makes the field loop drop the field), and the field survives the
unexported/embedded skip filters.  Only such a field can break the dense
sequential numbering. -/
def tagEmitted (t : Transformer) (f : GoField) : Bool :=
  (match parseProtobufTag f.tag with
    | some pf => pf.name != ""
    | none => false) &&
  !(!f.exported && !t.opts.includePrivate) && !f.embedded

/-- The field loop assigns consecutive numbers starting at `n` to the
fields it emits, whenever no emitted field carries a parsing `protobuf`
tag: skipped fields and parsed-but-nameless (dropped) fields may carry
any annotation. -/
theorem structFields_numbers (t : Transformer) (el tpl : String → Bool)
    (fields : List GoField) :
    ∀ (n : Int), (∀ f ∈ fields, tagEmitted t f = false) →
      ((structFields t el tpl fields n).1.map (fun pf => pf.number)) =
        seqNums n (structFields t el tpl fields n).1.length := by
  induction fields with
  | nil => intro n _; rfl
  | cons f rest ih =>
    intro n h
    have hf : tagEmitted t f = false := h f (by simp)
    have hrest : ∀ g ∈ rest, tagEmitted t g = false :=
      fun g hg => h g (List.mem_cons_of_mem f hg)
    unfold structFields
    split
    · exact ih n hrest
    rename_i hfil
    split
    · exact ih n hrest
    rename_i hemb
    cases htag : parseProtobufTag f.tag with
    | none =>
      simp only [transformField, htag]
      split
      · simp only [List.map_cons, List.length_cons, seqNums]
        exact congrArg _ (ih (n + 1) hrest)
      · exact ih n hrest
    | some pf =>
      have hname : pf.name = "" := by
        unfold tagEmitted at hf
        rw [htag] at hf
        simp only [Bool.not_eq_true] at hfil hemb
        rw [hfil, hemb] at hf
        simpa using hf
      simp only [transformField, htag]
      split
      · rename_i hne; exact absurd hname hne
      · exact ih n hrest

/-- A struct whose single exported field carries a well-formed wire tag
`protobuf:"varint,5,name=foo"` requesting field number 5. -/
def tagStruct : GoStruct :=
  { name := "S",
    fields := [.mk "A" (.basic "string") "protobuf:\"varint,5,name=foo\"" false [] true],
    comments := [], tags := fun _ => "", typeParams := [] }

/-- C3 counterexample: the claim asserts the numbers of the `N` emitted
fields are always exactly `{1..N}`; with a wire-tag annotation the tag's
number wins outright, so this one-field message carries number 5, not 1. -/
theorem c3_counterexample :
    ((transformStruct defaultTransformer tagStruct (fun _ => false)).messages.map
      (fun m => m.fields.map (fun pf => pf.number))) = [[5]] ∧
    ([[5]] : List (List Int)) ≠ [[1]] := ⟨rfl, by decide⟩

/-- C3 amended: for every struct in which no emitted field carries a
parsing `protobuf` wire-tag annotation, each produced message numbers its
`N` emitted fields exactly `1, 2, ..., N` in declaration order — no gaps
and no duplicates, however many source fields were skipped. -/
theorem c3_amended (t : Transformer) (s : GoStruct) (enumLookup : String → Bool)
    (h : ∀ f ∈ s.fields, tagEmitted t f = false) :
    (transformStruct t s enumLookup).messages.map
        (fun msg => msg.fields.map (fun pf => pf.number)) =
      (transformStruct t s enumLookup).messages.map
        (fun msg => seqNums 1 msg.fields.length) := by
  unfold transformStruct
  split
  · rfl
  split
  · rfl
  simp only [List.map_cons, List.map_nil, ProtoMessage.fields]
  rw [structFields_numbers t enumLookup _ s.fields 1 h]

/-- A struct mixing emitted untagged fields with every kind of
non-emitted field the amended claim covers: a skipped unexported field
whose tag parses with a name, a skipped embedded field, and a processed
exported field whose tag parses without a name (and so is dropped). -/
def userStruct : GoStruct :=
  { name := "User",
    fields := [.mk "ID" (.basic "string") "" false [] true,
               .mk "secret" (.basic "string") "protobuf:\"varint,9,name=hidden\"" false [] false,
               .mk "Email" (.basic "string") "" false [] true,
               .mk "Base" (.named "" "Base") "" true [] true,
               .mk "Blob" (.basic "string") "protobuf:\"varint,7,rep\"" false [] true,
               .mk "CreatedAt" (.named "time" "Time") "" false [] true],
    comments := [], tags := fun _ => "", typeParams := [] }

/-- Witness for `c3_amended` on `userStruct` (three emitted fields,
numbered 1, 2, 3 despite the skipped unexported and embedded fields and
the dropped parsed-but-nameless tagged field). -/
theorem c3_amended_witness :
    (transformStruct defaultTransformer userStruct (fun _ => false)).messages.map
        (fun msg => msg.fields.map (fun pf => pf.number)) =
      (transformStruct defaultTransformer userStruct (fun _ => false)).messages.map
        (fun msg => seqNums 1 msg.fields.length) :=
  c3_amended defaultTransformer userStruct (fun _ => false) (by decide)

/-! ### C5 — malformed wire-tag annotations -/

/-- A struct whose field's annotation parses (three comma-separated
parts) but specifies no `name=` option. -/
def dropStruct : GoStruct :=
  { name := "S2",
    fields := [.mk "A" (.basic "string") "protobuf:\"varint,7,rep\"" false [] true],
    comments := [], tags := fun _ => "", typeParams := [] }

/-- C5 counterexample: the annotation `protobuf:"varint,7,rep"` does not
fully specify number, name and type (no `name=`), so per the claim it
should be ignored and the field emitted by inference as field 1; instead
`parseProtobufTag` accepts it, the resulting field has an empty name, and
the field loop silently drops the field: the message has no fields at
all. -/
theorem c5_counterexample :
    (parseProtobufTag "protobuf:\"varint,7,rep\"").isSome = true ∧
    ((transformStruct defaultTransformer dropStruct (fun _ => false)).messages.map
      (fun m => m.fields)) = [[]] := ⟨rfl, rfl⟩

theorem parseProtobufTag_empty : parseProtobufTag "" = none := rfl

/-- C5 amended: an annotation is ignored — the field transforms exactly
as if it carried no annotation, with the next sequential field number —
precisely when `parseProtobufTag` rejects it (empty tag, no
`protobuf:"..."` group, or fewer than three comma-separated parts).  An
annotation with three or more parts is honoured as parsed even when
incomplete: in particular a missing `name=` drops the field entirely. -/
theorem c5_amended (t : Transformer) (f : GoField) (num : Int)
    (enumLookup typeParamsLookup : String → Bool)
    (h : parseProtobufTag f.tag = none) :
    transformField t f num enumLookup typeParamsLookup =
      transformField t (.mk f.name f.typ "" f.embedded f.comments f.exported) num
        enumLookup typeParamsLookup ∧
    (transformField t f num enumLookup typeParamsLookup).1.number = num := by
  obtain ⟨nm, ty, tg, emb, cs, ex⟩ := f
  simp only [GoField.tag] at h
  constructor
  · simp only [transformField, h, parseProtobufTag_empty,
      GoField.name, GoField.typ, GoField.tag, GoField.comments]
  · simp only [transformField, h, GoField.tag]

/-- The field `ID string` carrying only a `json` tag (no protobuf
group). -/
def jsonField : GoField := .mk "ID" (.basic "string") "json:\"id\"" false [] true

/-- Witness for `c5_amended` on `jsonField`. -/
theorem c5_amended_witness :
    (transformField defaultTransformer jsonField 1 (fun _ => false) (fun _ => false) =
      transformField defaultTransformer (.mk "ID" (.basic "string") "" false [] true) 1
        (fun _ => false) (fun _ => false)) ∧
    (transformField defaultTransformer jsonField 1 (fun _ => false) (fun _ => false)).1.number = 1 :=
  c5_amended defaultTransformer jsonField 1 (fun _ => false) (fun _ => false) rfl

/-! ### C4 — first enum value numbering -/

/-- Comparison definition following the spec's words ("the counter that
assigns numeric codes...; unexported names still consume a counter slot
without emitting a value"): enumerate one group's names from counter
`k`, emitting `(name, counter)` only for exported names. -/
def enumeratedExported : List String → Int → List (String × Int)
  | [], _ => []
  | nm :: rest, k =>
    if goIsExported nm then (nm, k) :: enumeratedExported rest (k + 1)
    else enumeratedExported rest (k + 1)

def groupPairs (groups : List GoConstGroup) (tn : String) : List (String × Int) :=
  match groups.find? (fun g => g.typeName = tn) with
  | some g => g.values.map (fun v => (v.name, v.value))
  | none => []

theorem groupPairs_addValue (groups : List GoConstGroup) (tn : String) (v : GoConstValue) :
    groupPairs (addValue groups tn v) tn = groupPairs groups tn ++ [(v.name, v.value)] := by
  induction groups with
  | nil => simp [addValue, groupPairs, List.find?]
  | cons g rest ih =>
    by_cases h : g.typeName = tn
    · simp [addValue, groupPairs, List.find?, h]
    · simp only [addValue, groupPairs, List.find?] at *
      simp [h, ih]

theorem groupPairs_ensureGroup (groups : List GoConstGroup) (tn : String) :
    groupPairs (ensureGroup groups tn) tn = groupPairs groups tn := by
  induction groups with
  | nil => simp [ensureGroup, groupPairs, List.find?]
  | cons g rest ih =>
    by_cases h : g.typeName = tn
    · simp [ensureGroup, groupPairs, List.find?, h]
    · simp only [ensureGroup, groupPairs, List.find?] at *
      simp [h, ih]

theorem constName_state (cs : List String) (tn : String) (st : ConstState) (nm : String) :
    (constName cs tn st nm).currentType = st.currentType ∧
    (constName cs tn st nm).iota = st.iota + 1 ∧
    groupPairs (constName cs tn st nm).groups tn =
      groupPairs st.groups tn ++ (if goIsExported nm then [(nm, st.iota)] else []) := by
  unfold constName
  by_cases h : goIsExported nm = true
  · simp [h, groupPairs_addValue]
  · simp at h
    simp [h]

theorem constNames_fold (tn : String) (cs : List String) (names : List String) :
    ∀ st : ConstState,
      (names.foldl (constName cs tn) st).currentType = st.currentType ∧
      (names.foldl (constName cs tn) st).iota = st.iota + names.length ∧
      groupPairs (names.foldl (constName cs tn) st).groups tn =
        groupPairs st.groups tn ++ enumeratedExported names st.iota := by
  induction names with
  | nil => intro st; simp [enumeratedExported]
  | cons nm rest ih =>
    intro st
    rw [List.foldl_cons]
    obtain ⟨h1, h2, h3⟩ := constName_state cs tn st nm
    obtain ⟨ih1, ih2, ih3⟩ := ih (constName cs tn st nm)
    refine ⟨by rw [ih1, h1], by rw [ih2, h2]; simp only [List.length_cons]; push_cast; ring, ?_⟩
    rw [ih3, h3, h2]
    by_cases hex : goIsExported nm = true
    · simp [enumeratedExported, hex]
    · simp at hex
      simp [enumeratedExported, hex]

theorem enumeratedExported_append (b : List String) (a : List String) :
    ∀ k : Int, enumeratedExported (a ++ b) k =
      enumeratedExported a k ++ enumeratedExported b (k + a.length) := by
  induction a with
  | nil => intro k; simp [enumeratedExported]
  | cons nm rest ih =>
    intro k
    have harith : k + 1 + (rest.length : Int) = k + ((nm :: rest).length : Int) := by
      simp only [List.length_cons]; push_cast; ring
    by_cases h : goIsExported nm = true
    · simp only [List.cons_append, enumeratedExported, h, if_true, List.append_eq]
      rw [ih (k + 1), harith]
    · simp only [Bool.not_eq_true] at h
      simp only [List.cons_append, enumeratedExported, h, Bool.false_eq_true, if_false,
        List.append_eq]
      rw [ih (k + 1), harith]

theorem constSpec_state (T : String) (hT : T ≠ "") (vs : ValueSpec)
    (hvs : vs.typ = some T ∨ vs.typ = none) (st : ConstState)
    (hcur : st.currentType = T) :
    (constSpec st vs).currentType = T ∧
    (constSpec st vs).iota = st.iota + vs.names.length ∧
    groupPairs (constSpec st vs).groups T =
      groupPairs st.groups T ++ enumeratedExported vs.names st.iota := by
  have hne : ¬ st.currentType = "" := by rw [hcur]; exact hT
  unfold constSpec
  have hmatch : (match vs.typ with
      | some tn => if st.currentType ≠ tn then { st with currentType := tn, iota := 0 } else st
      | none => st) = st := by
    rcases hvs with h | h <;> rw [h] <;> simp [hcur]
  rw [hmatch, if_neg hne]
  simp only [hcur]
  obtain ⟨f1, f2, f3⟩ := constNames_fold T vs.comments vs.names
    { currentType := T, iota := st.iota, groups := ensureGroup st.groups T }
  refine ⟨f1, f2, ?_⟩
  rw [f3]
  have he := groupPairs_ensureGroup st.groups T
  exact congrArg₂ _ he rfl

theorem constSpecs_fold (T : String) (hT : T ≠ "") (specs : List ValueSpec)
    (hshape : ∀ s ∈ specs, s.typ = some T ∨ s.typ = none) :
    ∀ st : ConstState, st.currentType = T →
      (specs.foldl constSpec st).currentType = T ∧
      groupPairs (specs.foldl constSpec st).groups T =
        groupPairs st.groups T ++
          enumeratedExported ((specs.map ValueSpec.names).flatten) st.iota := by
  induction specs with
  | nil => exact fun st h => ⟨h, by simp [enumeratedExported]⟩
  | cons vs rest ih =>
    intro st hcur
    rw [List.foldl_cons]
    obtain ⟨c1, c2, c3⟩ := constSpec_state T hT vs (hshape vs (by simp)) st hcur
    obtain ⟨i1, i2⟩ := ih (fun s hs => hshape s (List.mem_cons_of_mem _ hs))
      (constSpec st vs) c1
    refine ⟨i1, ?_⟩
    rw [i2, c3, c2, List.map_cons, List.flatten_cons,
      enumeratedExported_append ((rest.map ValueSpec.names).flatten) vs.names st.iota,
      List.append_assoc]

theorem enumeratedExported_head (names : List String) :
    ∀ (k : Int) (v : String × Int),
      (enumeratedExported names k).head? = some v →
      v.2 = k + ((names.takeWhile (fun n => !goIsExported n)).length : Int) := by
  induction names with
  | nil => intro k v h; simp [enumeratedExported] at h
  | cons nm rest ih =>
    intro k v h
    by_cases hex : goIsExported nm = true
    · simp only [enumeratedExported, hex, if_true, List.head?_cons,
        Option.some.injEq] at h
      rw [← h]
      simp [List.takeWhile_cons, hex]
    · simp only [Bool.not_eq_true] at hex
      simp only [enumeratedExported, hex, Bool.false_eq_true, if_false] at h
      have := ih (k + 1) v h
      rw [this]
      simp [List.takeWhile_cons, hex]
      ring

/-- C4 amended: for an iota-style const block (first spec typed `T`, the
rest typed `T` or untyped), the extracted group's `(name, number)` pairs
are exactly the exported names enumerated from 0 with every name —
exported or not — consuming one slot; hence the first emitted value is
numbered by the count of names preceding the first exported one (0
exactly when the block starts with an exported constant), and
`transformEnums` copies these numbers verbatim into the emitted enum. -/
theorem c4_amended (T : String) (s0 : ValueSpec) (rest : List ValueSpec)
    (hT : T ≠ "") (h0 : s0.typ = some T)
    (hrest : ∀ s ∈ rest, s.typ = some T ∨ s.typ = none) :
    groupPairs (extractConsts (s0 :: rest) []) T =
      enumeratedExported (((s0 :: rest).map ValueSpec.names).flatten) 0 ∧
    (groupPairs (extractConsts (s0 :: rest) []) T).head?.map Prod.snd =
      (groupPairs (extractConsts (s0 :: rest) []) T).head?.map
        (fun _ => (((((s0 :: rest).map ValueSpec.names).flatten).takeWhile
          (fun n => !goIsExported n)).length : Int)) := by
  have hstep : constSpec { currentType := "", iota := 0, groups := [] } s0 =
      s0.names.foldl (constName s0.comments T)
        { currentType := T, iota := 0, groups := [{ typeName := T, values := [] }] } := by
    have hne : ¬ ("" = T) := fun hc => hT hc.symm
    unfold constSpec
    rw [h0]
    simp only [ne_eq, hne, not_false_eq_true, if_true]
    rw [if_neg hT]
    rfl
  have hfold : extractConsts (s0 :: rest) [] =
      (rest.foldl constSpec (s0.names.foldl (constName s0.comments T)
        { currentType := T, iota := 0,
          groups := [{ typeName := T, values := [] }] })).groups := by
    unfold extractConsts
    rw [List.foldl_cons, hstep]
  obtain ⟨f1, f2, f3⟩ := constNames_fold T s0.comments s0.names
    { currentType := T, iota := 0, groups := [{ typeName := T, values := [] }] }
  obtain ⟨g1, g2⟩ := constSpecs_fold T hT rest hrest _ f1
  have hempty : groupPairs [{ typeName := T, values := [] }] T = [] := by
    simp [groupPairs, List.find?]
  have hpairs : groupPairs (extractConsts (s0 :: rest) []) T =
      enumeratedExported (((s0 :: rest).map ValueSpec.names).flatten) 0 := by
    rw [hfold, g2, f3, f2, hempty]
    simp only [List.nil_append, List.map_cons, List.flatten_cons]
    rw [enumeratedExported_append ((rest.map ValueSpec.names).flatten) s0.names 0]
  refine ⟨hpairs, ?_⟩
  rw [hpairs]
  cases h : (enumeratedExported (((s0 :: rest).map ValueSpec.names).flatten) 0).head? with
  | none => rfl
  | some v =>
    have hv := enumeratedExported_head _ 0 v h
    simp only [Option.map_some', hv]
    norm_num

/-- The iota-style const block `statusHidden Status = iota; StatusA;
StatusB`: one typed spec followed by untyped specs, the first declared
name unexported. -/
def hiddenSpec0 : ValueSpec :=
  { typ := some "Status", names := ["statusHidden"], comments := [] }

def hiddenSpecRest : List ValueSpec :=
  [{ typ := none, names := ["StatusA"], comments := [] },
   { typ := none, names := ["StatusB"], comments := [] }]

/-- The package holding only the constants extracted from that block. -/
def hiddenPkg : GoPackage :=
  { path := "example.com/m", name := "m", structs := [], interfaces := [],
    aliases := [], consts := extractConsts (hiddenSpec0 :: hiddenSpecRest) [] }

/-- C4 counterexample: the enum is emitted (two exported values) and no
numbering override exists anywhere in the pipeline, yet its first emitted
value is numbered 1, not 0: the leading unexported constant consumed the
0 slot. -/
theorem c4_counterexample :
    ((transformEnums defaultTransformer hiddenPkg (buildEnumLookup hiddenPkg)).enums.map
      (fun e => (e.name, e.values.map (fun v => (v.name, v.number))))) =
      [("Status", [("STATUS_A", 1), ("STATUS_B", 2)])] ∧
    ((1 : Int) ≠ 0) := ⟨rfl, by decide⟩

/-- Witness for `c4_amended` at the `hiddenSpec0` const block. -/
theorem c4_amended_witness :
    groupPairs (extractConsts (hiddenSpec0 :: hiddenSpecRest) []) "Status" =
      enumeratedExported (((hiddenSpec0 :: hiddenSpecRest).map ValueSpec.names).flatten) 0 ∧
    (groupPairs (extractConsts (hiddenSpec0 :: hiddenSpecRest) []) "Status").head?.map Prod.snd =
      (groupPairs (extractConsts (hiddenSpec0 :: hiddenSpecRest) []) "Status").head?.map
        (fun _ => (((((hiddenSpec0 :: hiddenSpecRest).map ValueSpec.names).flatten).takeWhile
          (fun n => !goIsExported n)).length : Int)) :=
  c4_amended "Status" hiddenSpec0 hiddenSpecRest (by decide) rfl (by decide)

/-! ### C9 — determinism of the engine -/

/-- `transformType` never reads `knownTypes`: its result depends on the
transformer only through `opts`. -/
theorem transformType_opts (o : TransformOptions) (k₁ k₂ : String → Bool) :
    ∀ (g : GoType) (el tpl : String → Bool),
      transformType ⟨o, k₁⟩ g el tpl = transformType ⟨o, k₂⟩ g el tpl
  | .basic n, el, tpl => rfl
  | .pointer e, el, tpl => transformType_opts o k₁ k₂ e el tpl
  | .slice e, el, tpl => by
    cases e with
    | basic bn => rfl
    | pointer elem =>
      exact congrArg (fun r => { TypeResolution.zero with
        protoType := r.protoType, imports := r.imports, repeated := true })
        (transformType_opts o k₁ k₂ (.pointer elem) el tpl)
    | slice elem =>
      exact congrArg (fun r => { TypeResolution.zero with
        protoType := r.protoType, imports := r.imports, repeated := true })
        (transformType_opts o k₁ k₂ (.slice elem) el tpl)
    | array elem len =>
      exact congrArg (fun r => { TypeResolution.zero with
        protoType := r.protoType, imports := r.imports, repeated := true })
        (transformType_opts o k₁ k₂ (.array elem len) el tpl)
    | mapT key value =>
      exact congrArg (fun r => { TypeResolution.zero with
        protoType := r.protoType, imports := r.imports, repeated := true })
        (transformType_opts o k₁ k₂ (.mapT key value) el tpl)
    | named p n =>
      exact congrArg (fun r => { TypeResolution.zero with
        protoType := r.protoType, imports := r.imports, repeated := true })
        (transformType_opts o k₁ k₂ (.named p n) el tpl)
    | interfaceT ms =>
      exact congrArg (fun r => { TypeResolution.zero with
        protoType := r.protoType, imports := r.imports, repeated := true })
        (transformType_opts o k₁ k₂ (.interfaceT ms) el tpl)
    | structT fs =>
      exact congrArg (fun r => { TypeResolution.zero with
        protoType := r.protoType, imports := r.imports, repeated := true })
        (transformType_opts o k₁ k₂ (.structT fs) el tpl)
    | chan elem d =>
      exact congrArg (fun r => { TypeResolution.zero with
        protoType := r.protoType, imports := r.imports, repeated := true })
        (transformType_opts o k₁ k₂ (.chan elem d) el tpl)
    | funcT ps rs =>
      exact congrArg (fun r => { TypeResolution.zero with
        protoType := r.protoType, imports := r.imports, repeated := true })
        (transformType_opts o k₁ k₂ (.funcT ps rs) el tpl)
  | .array e len, el, tpl => by
    exact congrArg (fun r => { TypeResolution.zero with
      protoType := r.protoType, imports := r.imports, repeated := true })
      (transformType_opts o k₁ k₂ e el tpl)
  | .mapT key value, el, tpl => by
    exact congrArg₂ (fun rk rv =>
      ({ protoType := "map<" ++ TypeResolution.protoType rk ++ ", " ++
           TypeResolution.protoType rv ++ ">",
         imports := TypeResolution.imports rk ++ TypeResolution.imports rv,
         repeated := false, isMap := true,
         mapKey := TypeResolution.protoType rk,
         mapValue := TypeResolution.protoType rv } : TypeResolution))
      (transformType_opts o k₁ k₂ key el tpl)
      (transformType_opts o k₁ k₂ value el tpl)
  | .named p n, el, tpl => rfl
  | .interfaceT ms, el, tpl => rfl
  | .structT fs, el, tpl => rfl
  | .chan e d, el, tpl => rfl
  | .funcT ps rs, el, tpl => rfl

theorem transformField_opts (o : TransformOptions) (k₁ k₂ : String → Bool)
    (f : GoField) (num : Int) (el tpl : String → Bool) :
    transformField ⟨o, k₁⟩ f num el tpl = transformField ⟨o, k₂⟩ f num el tpl := by
  unfold transformField
  cases h : parseProtobufTag f.tag with
  | some tf => rfl
  | none => rw [transformType_opts o k₁ k₂ f.typ el tpl]

theorem structFields_opts (o : TransformOptions) (k₁ k₂ el tpl : String → Bool)
    (fields : List GoField) :
    ∀ n : Int, structFields ⟨o, k₁⟩ el tpl fields n = structFields ⟨o, k₂⟩ el tpl fields n := by
  induction fields with
  | nil => intro n; rfl
  | cons f rest ih =>
    intro n
    unfold structFields
    rw [transformField_opts o k₁ k₂ f n el tpl, ih n, ih (n + 1)]

theorem transformStruct_opts (o : TransformOptions) (k₁ k₂ : String → Bool)
    (s : GoStruct) (el : String → Bool) :
    transformStruct ⟨o, k₁⟩ s el = transformStruct ⟨o, k₂⟩ s el := by
  unfold transformStruct
  simp only [structFields_opts o k₁ k₂ el]

theorem generateRequestMessage_opts (o : TransformOptions) (k₁ k₂ : String → Bool)
    (mn : String) (params : List GoParam) :
    generateRequestMessage ⟨o, k₁⟩ mn params = generateRequestMessage ⟨o, k₂⟩ mn params := by
  unfold generateRequestMessage
  congr 1
  apply List.map_congr_left
  intro ip _
  rw [transformType_opts o k₁ k₂ ip.2.typ (fun _ => false) (fun _ => false)]

theorem generateResponseMessage_opts (o : TransformOptions) (k₁ k₂ : String → Bool)
    (mn : String) (results : List GoParam) :
    generateResponseMessage ⟨o, k₁⟩ mn results = generateResponseMessage ⟨o, k₂⟩ mn results := by
  unfold generateResponseMessage
  congr 1
  apply List.map_congr_left
  intro ip _
  rw [transformType_opts o k₁ k₂ ip.2.typ (fun _ => false) (fun _ => false)]

theorem methodInput_opts (o : TransformOptions) (k₁ k₂ : String → Bool)
    (mn : String) (params : List GoParam) :
    methodInput ⟨o, k₁⟩ mn params = methodInput ⟨o, k₂⟩ mn params := by
  cases params with
  | nil => rfl
  | cons p rest =>
    cases rest with
    | cons q rs => simp only [methodInput, generateRequestMessage_opts o k₁ k₂ mn]
    | nil =>
      obtain ⟨pn, pt⟩ := p
      cases pt <;> simp only [methodInput, generateRequestMessage_opts o k₁ k₂ mn]

theorem methodOutput_opts (o : TransformOptions) (k₁ k₂ : String → Bool)
    (mn : String) (results : List GoParam) :
    methodOutput ⟨o, k₁⟩ mn results = methodOutput ⟨o, k₂⟩ mn results := by
  cases results with
  | nil => rfl
  | cons r rest =>
    cases rest with
    | cons q rs => simp only [methodOutput, generateResponseMessage_opts o k₁ k₂ mn]
    | nil =>
      obtain ⟨rn, rt⟩ := r
      cases rt
      case pointer elem =>
        cases elem <;> simp only [methodOutput, generateResponseMessage_opts o k₁ k₂ mn]
      all_goals simp only [methodOutput, generateResponseMessage_opts o k₁ k₂ mn]

theorem transformMethod_opts (o : TransformOptions) (k₁ k₂ : String → Bool)
    (m : GoMethod) (serviceName : String) :
    transformMethod ⟨o, k₁⟩ m serviceName = transformMethod ⟨o, k₂⟩ m serviceName := by
  unfold transformMethod
  rw [methodInput_opts o k₁ k₂ m.name (dropContext m.params),
    methodOutput_opts o k₁ k₂ m.name (dropError m.results)]

theorem interfaceMethods_opts (o : TransformOptions) (k₁ k₂ : String → Bool)
    (serviceName : String) (ms : List GoMethod) :
    interfaceMethods ⟨o, k₁⟩ serviceName ms = interfaceMethods ⟨o, k₂⟩ serviceName ms := by
  induction ms with
  | nil => rfl
  | cons m rest ih =>
    unfold interfaceMethods
    rw [transformMethod_opts o k₁ k₂ m serviceName, ih]

theorem transformInterface_opts (o : TransformOptions) (k₁ k₂ : String → Bool)
    (i : GoInterface) :
    transformInterface ⟨o, k₁⟩ i = transformInterface ⟨o, k₂⟩ i := by
  unfold transformInterface
  rw [interfaceMethods_opts o k₁ k₂ i.name i.methods]

theorem transformEnums_opts (o : TransformOptions) (k₁ k₂ : String → Bool)
    (pkg : GoPackage) (el : String → Bool) :
    transformEnums ⟨o, k₁⟩ pkg el = transformEnums ⟨o, k₂⟩ pkg el := rfl

theorem transformPackage_opts (o : TransformOptions) (k₁ k₂ : String → Bool)
    (pkg : GoPackage) :
    transformPackage ⟨o, k₁⟩ pkg = transformPackage ⟨o, k₂⟩ pkg := by
  unfold transformPackage
  simp only [transformEnums_opts o k₁ k₂, transformStruct_opts o k₁ k₂,
    transformInterface_opts o k₁ k₂]

theorem Transform_opts (o : TransformOptions) (k₁ k₂ : String → Bool)
    (pkgs : List GoPackage) :
    Transform ⟨o, k₁⟩ pkgs = Transform ⟨o, k₂⟩ pkgs := by
  unfold Transform
  have h : transformPackage (⟨o, k₁⟩ : Transformer) = transformPackage ⟨o, k₂⟩ :=
    funext fun pkg => transformPackage_opts o k₁ k₂ pkg
  rw [h]

/-- One step of the Go option-copy loops in `ProtoMonoid.Append`:
`opts[k] = v` on the extensional map. -/
def insertOption (m : String → Option String) (kv : String × String) :
    String → Option String :=
  fun k => if k = kv.1 then some kv.2 else m k

/-- The Go `for k, v := range src { opts[k] = v }` loop, run over one
enumeration of the source map's entries. -/
def insertOptions (m : String → Option String) (l : List (String × String)) :
    String → Option String :=
  l.foldl insertOption m

theorem insertOptions_perm {l₁ l₂ : List (String × String)} (hp : l₁.Perm l₂) :
    ∀ m : String → Option String, (l₁.map Prod.fst).Nodup →
      insertOptions m l₁ = insertOptions m l₂ := by
  induction hp with
  | nil => intro m _; rfl
  | cons x p ih =>
    intro m hnd
    simp only [List.map_cons, List.nodup_cons] at hnd
    show insertOptions (insertOption m x) _ = insertOptions (insertOption m x) _
    exact ih (insertOption m x) hnd.2
  | swap x y l =>
    intro m hnd
    simp only [List.map_cons, List.nodup_cons, List.mem_cons] at hnd
    have hxy : y.1 ≠ x.1 := fun h => hnd.1 (Or.inl h)
    show insertOptions (insertOption (insertOption m y) x) l =
      insertOptions (insertOption (insertOption m x) y) l
    have hcomm : insertOption (insertOption m y) x = insertOption (insertOption m x) y := by
      funext k
      simp only [insertOption]
      by_cases h1 : k = x.1 <;> by_cases h2 : k = y.1 <;>
        simp [h1, h2, hxy, Ne.symm hxy]
    rw [hcomm]
  | trans p₁ p₂ ih₁ ih₂ =>
    intro m hnd
    have hnd2 := ((p₁.map Prod.fst).nodup_iff).mp hnd
    rw [ih₁ m hnd, ih₂ m hnd2]

theorem insertOptions_lookup (l : List (String × String)) :
    ∀ (m : String → Option String) (k : String),
      insertOptions m l k =
        match insertOptions (fun _ => none) l k with
        | some v => some v
        | none => m k := by
  induction l with
  | nil => intro m k; rfl
  | cons kv rest ih =>
    intro m k
    show insertOptions (insertOption m kv) rest k = _
    rw [ih (insertOption m kv) k]
    conv_rhs => rw [show insertOptions (fun _ => none) (kv :: rest) k =
      insertOptions (insertOption (fun _ => none) kv) rest k from rfl]
    rw [ih (insertOption (fun _ => none) kv) k]
    cases insertOptions (fun _ => none) rest k with
    | some v => rfl
    | none =>
      simp only [insertOption]
      by_cases h : k = kv.1 <;> simp [h]

/-- C9: the engine is deterministic.  (i) `Transform` reads the
transformer only through its options: the mutable `knownTypes` map the
`Transformer` carries between runs never influences the produced IR, so
re-running on an unchanged Type Graph gives a literally identical `Proto`
(stronger than equality up to import ordering).  (ii) The one
iteration-order-sensitive operation, the option-map copy loop of
`ProtoMonoid.Append`, yields the same extensional map under any
enumeration order of the source map's entries, and (iii) its result is
exactly the later-fragment-wins merged option map of `protoAppend`. -/
theorem c9_deterministic :
    (∀ (opts : TransformOptions) (kt₁ kt₂ : String → Bool) (pkgs : List GoPackage),
      Transform ⟨opts, kt₁⟩ pkgs = Transform ⟨opts, kt₂⟩ pkgs) ∧
    (∀ (m : String → Option String) (l₁ l₂ : List (String × String)),
      l₁.Perm l₂ → (l₁.map Prod.fst).Nodup →
      insertOptions m l₁ = insertOptions m l₂) ∧
    (∀ (a b : Proto) (lb : List (String × String)),
      (∀ k, insertOptions (fun _ => none) lb k = b.options k) →
      insertOptions a.options lb = (protoAppend a b).options) :=
  ⟨fun opts kt₁ kt₂ pkgs => Transform_opts opts kt₁ kt₂ pkgs,
   fun m l₁ l₂ hp hnd => insertOptions_perm hp m hnd,
   fun a b lb hb => by
     funext k
     rw [insertOptions_lookup lb a.options k, hb k]
     rfl⟩

/-- Witness for `c9_deterministic` at concrete inputs. -/
theorem c9_deterministic_witness :
    (Transform ⟨DefaultOptions, fun _ => false⟩ [] =
      Transform ⟨DefaultOptions, fun _ => true⟩ []) ∧
    (insertOptions (fun _ => none) [("a", "1"), ("b", "2")] =
      insertOptions (fun _ => none) [("b", "2"), ("a", "1")]) ∧
    insertOptions protoEmpty.options [("go_package", "pkg_b")] =
      (protoAppend protoEmpty optB).options :=
  ⟨c9_deterministic.1 DefaultOptions (fun _ => false) (fun _ => true) [],
   c9_deterministic.2.1 (fun _ => none) _ _ (by decide) (by decide),
   c9_deterministic.2.2 protoEmpty optB [("go_package", "pkg_b")] (fun k => rfl)⟩

/-! ### C2 — the monoid laws of Proto composition -/

/-- First-occurrence deduplication in recursive form: keep the head and
dedup the tail with all copies of the head removed.  This computes the
same list as the `seen`-set loop of `ct.Unique` (proved below). -/
def uniqF {A : Type u} [DecidableEq A] : List A → List A
  | [] => []
  | x :: xs => x :: uniqF (xs.filter (fun y => y ≠ x))
termination_by l => l.length
decreasing_by
  simp only [List.length_cons]
  exact Nat.lt_succ_of_le (List.length_filter_le _ _)

theorem filter_swap {A : Type u} (p q : A → Bool) (l : List A) :
    (l.filter q).filter p = (l.filter p).filter q := by
  rw [List.filter_filter, List.filter_filter]
  exact List.filter_congr (fun x _ => Bool.and_comm _ _)

theorem filter_self_idem {A : Type u} (p : A → Bool) (l : List A) :
    (l.filter p).filter p = l.filter p := by
  rw [List.filter_filter]
  exact List.filter_congr (fun x _ => Bool.and_self _)

theorem uniqF_filter {A : Type u} [DecidableEq A] (p : A → Bool) :
    ∀ l : List A, uniqF (l.filter p) = (uniqF l).filter p
  | [] => by simp [uniqF]
  | x :: xs => by
    by_cases hp : p x = true
    · rw [List.filter_cons, if_pos hp]
      simp only [uniqF]
      rw [List.filter_cons, if_pos hp]
      congr 1
      rw [filter_swap (fun y => y ≠ x) p xs]
      exact uniqF_filter p (xs.filter (fun y => y ≠ x))
    · rw [List.filter_cons, if_neg hp]
      simp only [uniqF]
      rw [List.filter_cons, if_neg hp]
      have hxp : xs.filter p = (xs.filter (fun y => y ≠ x)).filter p := by
        rw [filter_swap p (fun y => y ≠ x) xs]
        symm
        rw [List.filter_eq_self]
        intro a ha
        have hpa := List.of_mem_filter ha
        simp only [decide_eq_true_eq]
        intro hax
        rw [hax] at hpa
        exact hp hpa
      rw [hxp]
      exact uniqF_filter p (xs.filter (fun y => y ≠ x))
termination_by l => l.length
decreasing_by
  all_goals simp only [List.length_cons]
  all_goals exact Nat.lt_succ_of_le (List.length_filter_le _ _)

theorem uniqF_append_left {A : Type u} [DecidableEq A] :
    ∀ a b : List A, uniqF (uniqF a ++ b) = uniqF (a ++ b)
  | [], b => by simp [uniqF]
  | x :: a', b => by
    simp only [uniqF, List.cons_append]
    congr 1
    rw [List.filter_append]
    have hidem : (uniqF (a'.filter (fun y => y ≠ x))).filter (fun y => y ≠ x) =
        uniqF (a'.filter (fun y => y ≠ x)) := by
      rw [← uniqF_filter (fun y => y ≠ x) (a'.filter (fun y => y ≠ x)),
        filter_self_idem]
    rw [hidem, uniqF_append_left (a'.filter (fun y => y ≠ x)) (b.filter (fun y => y ≠ x)),
      ← List.filter_append]
termination_by a _ => a.length
decreasing_by
  simp only [List.length_cons]
  exact Nat.lt_succ_of_le (List.length_filter_le _ _)

theorem uniqF_append_right {A : Type u} [DecidableEq A] :
    ∀ a b : List A, uniqF (a ++ uniqF b) = uniqF (a ++ b)
  | [], b => by
    have h := uniqF_append_left b ([] : List A)
    simpa using h
  | x :: a', b => by
    simp only [uniqF, List.cons_append]
    congr 1
    rw [List.filter_append, ← uniqF_filter (fun y => y ≠ x) b,
      uniqF_append_right (a'.filter (fun y => y ≠ x)) (b.filter (fun y => y ≠ x)),
      ← List.filter_append]
termination_by a _ => a.length
decreasing_by
  simp only [List.length_cons]
  exact Nat.lt_succ_of_le (List.length_filter_le _ _)

theorem uniqF_nodup_id {A : Type u} [DecidableEq A] (l : List A) (h : l.Nodup) :
    uniqF l = l := by
  induction l with
  | nil => simp [uniqF]
  | cons x xs ih =>
    rw [List.nodup_cons] at h
    have hf : xs.filter (fun y => y ≠ x) = xs := by
      rw [List.filter_eq_self]
      intro a ha
      simp only [decide_eq_true_eq]
      intro hax
      exact h.1 (hax ▸ ha)
    simp only [uniqF, hf, ih h.2]

theorem uniqAux_eq {A : Type u} [DecidableEq A] :
    ∀ (xs acc : List A),
      List.foldl (fun acc x => if x ∈ acc then acc else acc ++ [x]) acc xs =
        acc ++ uniqF (xs.filter (fun y => y ∉ acc))
  | [], acc => by simp [uniqF]
  | x :: xs, acc => by
    rw [List.foldl_cons]
    by_cases hx : x ∈ acc
    · rw [if_pos hx, uniqAux_eq xs acc, List.filter_cons]
      simp [hx]
    · rw [if_neg hx, uniqAux_eq xs (acc ++ [x]), List.filter_cons,
        if_pos (decide_eq_true hx)]
      have hpred : xs.filter (fun y => y ∉ acc ++ [x]) =
          (xs.filter (fun y => y ∉ acc)).filter (fun y => y ≠ x) := by
        rw [List.filter_filter]
        apply List.filter_congr
        intro a _
        simp [List.mem_append, not_or, and_comm]
      rw [hpred]
      simp only [uniqF, List.append_assoc, List.singleton_append]

theorem Unique_eq_uniqF {A : Type u} [DecidableEq A] (xs : List A) :
    ct.Unique xs = uniqF xs := by
  show List.foldl _ [] xs = _
  rw [uniqAux_eq xs []]
  simp only [List.nil_append]
  congr 1
  rw [List.filter_eq_self]
  intro a _
  simp

theorem Unique_idem_left {A : Type u} [DecidableEq A] (a b : List A) :
    ct.Unique (ct.Unique a ++ b) = ct.Unique (a ++ b) := by
  simp only [Unique_eq_uniqF]
  exact uniqF_append_left a b

theorem Unique_idem_right {A : Type u} [DecidableEq A] (a b : List A) :
    ct.Unique (a ++ ct.Unique b) = ct.Unique (a ++ b) := by
  simp only [Unique_eq_uniqF]
  exact uniqF_append_right a b

theorem Unique_nodup_id {A : Type u} [DecidableEq A] (l : List A) (h : l.Nodup) :
    ct.Unique l = l := by
  rw [Unique_eq_uniqF]
  exact uniqF_nodup_id l h

theorem Coalesce_assoc (a b c : String) :
    ct.Coalesce [ct.Coalesce [a, b], c] = ct.Coalesce [a, ct.Coalesce [b, c]] := by
  by_cases ha : a = "" <;> by_cases hb : b = "" <;> by_cases hc : c = "" <;>
    simp [ct.Coalesce, ha, hb, hc]

/-- C2 amended: `ProtoMonoid.Append` is fully associative — any grouping
of the fold yields an identical IR — but `Empty` is a two-sided identity
only on fragments whose `Syntax` is already `"proto3"` and whose import
list is duplicate-free: appending `Empty` forces the syntax marker to
`"proto3"` and deduplicates the import list, so it is not an identity on
arbitrary fragments. -/
theorem c2_monoid :
    (∀ a b c : Proto,
      protoAppend (protoAppend a b) c = protoAppend a (protoAppend b c)) ∧
    (∀ x : Proto, x.syn = "proto3" → x.imports.Nodup →
      protoAppend protoEmpty x = x ∧ protoAppend x protoEmpty = x) := by
  constructor
  · intro a b c
    unfold protoAppend
    refine Proto.ext ?_ ?_ ?_ ?_ ?_ ?_ ?_
    · exact Coalesce_assoc a.syn b.syn c.syn
    · exact Coalesce_assoc a.pkg b.pkg c.pkg
    · funext k
      show (match c.options k with
          | some v => some v
          | none => match b.options k with
            | some v => some v
            | none => a.options k) =
        (match (match c.options k with
            | some v => some v
            | none => b.options k) with
          | some v => some v
          | none => a.options k)
      cases c.options k <;> cases b.options k <;> rfl
    · show ct.Unique (ct.Unique (a.imports ++ b.imports) ++ c.imports) =
        ct.Unique (a.imports ++ ct.Unique (b.imports ++ c.imports))
      rw [Unique_idem_left, Unique_idem_right, List.append_assoc]
    · exact List.append_assoc _ _ _
    · exact List.append_assoc _ _ _
    · exact List.append_assoc _ _ _
  · intro x hsyn hnd
    constructor
    · unfold protoAppend
      refine Proto.ext ?_ ?_ ?_ ?_ ?_ ?_ ?_
      · show ct.Coalesce [protoEmpty.syn, x.syn] = x.syn
        simp [ct.Coalesce, protoEmpty, protoZero, hsyn]
      · show ct.Coalesce [protoEmpty.pkg, x.pkg] = x.pkg
        by_cases hp : x.pkg = "" <;> simp [ct.Coalesce, protoEmpty, protoZero, hp]
      · funext k
        show (match x.options k with
          | some v => some v
          | none => protoEmpty.options k) = x.options k
        cases x.options k <;> rfl
      · show ct.Unique (protoEmpty.imports ++ x.imports) = x.imports
        rw [show protoEmpty.imports = [] from rfl, List.nil_append]
        exact Unique_nodup_id x.imports hnd
      · exact List.nil_append _
      · exact List.nil_append _
      · exact List.nil_append _
    · unfold protoAppend
      refine Proto.ext ?_ ?_ ?_ ?_ ?_ ?_ ?_
      · show ct.Coalesce [x.syn, protoEmpty.syn] = x.syn
        simp [ct.Coalesce, protoEmpty, protoZero, hsyn]
      · show ct.Coalesce [x.pkg, protoEmpty.pkg] = x.pkg
        by_cases hp : x.pkg = "" <;> simp [ct.Coalesce, protoEmpty, protoZero, hp]
      · funext k
        show (match protoEmpty.options k with
          | some v => some v
          | none => x.options k) = x.options k
        rfl
      · show ct.Unique (x.imports ++ protoEmpty.imports) = x.imports
        rw [show protoEmpty.imports = [] from rfl, List.append_nil]
        exact Unique_nodup_id x.imports hnd
      · exact List.append_nil _
      · exact List.append_nil _
      · exact List.append_nil _

/-- C2 counterexample: `Empty` is not a two-sided identity as claimed:
appending it to the zero fragment (whose `Syntax` is empty) produces a
fragment with `Syntax = "proto3"`, a different value. -/
theorem c2_counterexample :
    protoEmpty.syn = "proto3" ∧ protoZero.syn = "" ∧
    protoAppend protoEmpty protoZero ≠ protoZero :=
  ⟨rfl, rfl, fun h => absurd (congrArg Proto.syn h) (by decide)⟩

/-- Witness for `c2_monoid` at concrete fragments. -/
theorem c2_monoid_witness :
    protoAppend (protoAppend optA optB) protoEmpty =
      protoAppend optA (protoAppend optB protoEmpty) ∧
    (protoAppend protoEmpty protoEmpty = protoEmpty ∧
     protoAppend protoEmpty protoEmpty = protoEmpty) :=
  ⟨c2_monoid.1 optA optB protoEmpty, c2_monoid.2 protoEmpty rfl (by decide)⟩
